import Mathlib

/-!
Verification development for the segmentation loss of a TensorFlow port of
YOLOv5 (files `segment/tf_loss.py` and `utils/tf_general.py`).

All floating point values are modelled as rationals (`ℚ`); transcendental
kernels (sigmoid, CIoU, elementwise binary cross entropy, mask resizing)
are abstracted as function parameters collected in a `Kernels` record,
while every structural computation (target assignment, filtering, neighbour
expansion, gathering, scattering, accumulation, finalization) is translated
directly from the source.
-/

set_option maxHeartbeats 1000000

namespace YoloTF

/-- A row of an n-by-4 box tensor; `c0 .. c3` are the four columns. -/
structure Box4 where
  c0 : ℚ
  c1 : ℚ
  c2 : ℚ
  c3 : ℚ
deriving Repr, DecidableEq, Inhabited

/-- Minimum of two rationals, written so that it evaluates by kernel
reduction; equal to `min` by `minQ_eq`. -/
def minQ (a b : ℚ) : ℚ := if a ≤ b then a else b

/-- Maximum of two rationals; equal to `max` by `maxQ_eq`. -/
def maxQ (a b : ℚ) : ℚ := if a ≤ b then b else a

/-- Minimum of two integers; equal to `min` by `minZ_eq`. -/
def minZ (a b : ℤ) : ℤ := if a ≤ b then a else b

/-- Maximum of two integers; equal to `max` by `maxZ_eq`. -/
def maxZ (a b : ℤ) : ℤ := if a ≤ b then b else a

/-- Truncation toward zero, the semantics of a TensorFlow cast to int32
(`astype(tf.int32)`) for values within int32 range. -/
def truncQ (q : ℚ) : ℤ := if 0 ≤ q then q.floor else -(-q).floor

/-- Clip an integer to the interval given by lower and upper bounds;
this is `tf.clip_by_value` = `minimum (maximum v lo) hi` on integers. -/
def clipZ (v lo hi : ℤ) : ℤ := minZ (maxZ v lo) hi

/-- Clip a rational to the interval given by lower and upper bounds;
this is `tf.clip_by_value` = `minimum (maximum v lo) hi`. -/
def clipQ (v lo hi : ℚ) : ℚ := minQ (maxQ v lo) hi

/-- Floor modulo by 1, the semantics of `tf.math.floormod(x, 1.0)`. -/
def fmod1 (q : ℚ) : ℚ := q - q.floor

/-- Unique values of a list in order of first occurrence, the semantics of
`tf.unique(b)[0]`. -/
def uniqueFirst : List ℤ → List ℤ
  | [] => []
  | x :: xs => x :: uniqueFirst (xs.filter (fun y => y ≠ x))
termination_by l => l.length
decreasing_by
  simp only [List.length_cons]
  exact Nat.lt_succ_of_le (List.length_filter_le _ _)

/-! ### Geometry utilities (`utils/tf_general.py`) -/

/-- `xyxy2xywh` (tf_general.py lines 724-731): convert a box row from
corner form (x1, y1, x2, y2) to center/size form (xc, yc, w, h). -/
def xyxy2xywh (x : Box4) : Box4 :=
  ⟨(x.c0 + x.c2) / 2, (x.c1 + x.c3) / 2, x.c2 - x.c0, x.c3 - x.c1⟩

/-- `xywh2xyxy` (tf_general.py lines 734-740): convert a box row from
center/size form (xc, yc, w, h) to corner form (x1, y1, x2, y2). -/
def xywh2xyxy (x : Box4) : Box4 :=
  ⟨x.c0 - x.c2 / 2, x.c1 - x.c3 / 2, x.c0 + x.c2 / 2, x.c1 + x.c3 / 2⟩

/-- `scale_boxes` (tf_general.py lines 892-911) for one box row.
`img1` and `img0` are (height, width) pairs; `ratioPad`, when present, is
(gain, pad0, pad1).  The affine undo subtracts the padding and divides by
the gain, then each coordinate is clipped by `tf.clip_by_value` with lower
bound 0 and upper bound the destination width (x) or height (y). -/
def scaleBoxes (img1 : ℚ × ℚ) (box : Box4) (img0 : ℚ × ℚ)
    (ratioPad : Option (ℚ × ℚ × ℚ)) : Box4 :=
  let gp : ℚ × ℚ × ℚ :=
    match ratioPad with
    | none =>
        let gain := minQ (img1.1 / img0.1) (img1.2 / img0.2)
        (gain, (img1.2 - img0.2 * gain) / 2, (img1.1 - img0.1 * gain) / 2)
    | some r => r
  let gain := gp.1
  let pad0 := gp.2.1
  let pad1 := gp.2.2
  ⟨clipQ ((box.c0 - pad0) / gain) 0 img0.2,
   clipQ ((box.c1 - pad1) / gain) 0 img0.1,
   clipQ ((box.c2 - pad0) / gain) 0 img0.2,
   clipQ ((box.c3 - pad1) / gain) 0 img0.1⟩

/-! ### Target assigner (`segment/tf_loss.py`, `ComputeLoss.build_targets`) -/

/-- One row of the raw `[nt, 6]` batch label tensor:
(image index, class, center x, center y, width, height), normalized. -/
structure RawT where
  img : ℚ
  cls : ℚ
  x : ℚ
  y : ℚ
  w : ℚ
  h : ℚ
deriving Repr, DecidableEq, Inhabited

/-- One row of the augmented `[na, nt, 8]` tensor built in step 1 of
`build_targets`: the raw 6 fields plus the anchor index `ai` and the
running target index `ti`, both kept as floats as in the source. -/
structure Tgt where
  img : ℚ
  cls : ℚ
  x : ℚ
  y : ℚ
  w : ℚ
  h : ℚ
  ai : ℚ
  ti : ℚ
deriving Repr, DecidableEq, Inhabited

/-- One row of a layer's `indices` output: image index, anchor index and
the two clipped grid-cell coordinates, all after the int32 cast. -/
structure IndexRow where
  b : ℤ
  a : ℤ
  gjx : ℤ
  gjy : ℤ
deriving Repr, DecidableEq, Inhabited

/-- The per-layer assignment record returned by `build_targets`:
parallel sequences `tcls`, `tbox`, `indices`, `anch`, `tidxs`, `xywhn`. -/
structure LayerOut where
  tcls : List ℚ
  tbox : List Box4
  indices : List IndexRow
  anch : List (ℚ × ℚ)
  tidxs : List ℚ
  xywhn : List Box4
deriving Repr, DecidableEq, Inhabited

/-- Step 1b of `build_targets` (lines 271-281): the row of running target
indices.  In overlap mode it concatenates, per image index `0 .. bs-1`,
the one-based range over that image's target count; otherwise it is the
zero-based global range over all batch targets. -/
def tiRow (overlap : Bool) (batchSize : ℕ) (targets : List RawT) : List ℚ :=
  if overlap then
    (List.range batchSize).flatMap fun idx =>
      (List.range (targets.countP (fun t => t.img = (idx : ℚ)))).map
        fun k => (k : ℚ) + 1
  else
    (List.range targets.length).map fun k => (k : ℚ)

/-- Steps 1a-1d of `build_targets`: duplicate the targets once per anchor
and concatenate the anchor index and running target index columns, giving
the `[na, nt, 8]` tensor as a list of `na` rows of `nt` entries. -/
def augRows (na : ℕ) (overlap : Bool) (batchSize : ℕ)
    (targets : List RawT) : List (List Tgt) :=
  let ti := tiRow overlap batchSize targets
  (List.range na).map fun (a : ℕ) =>
    (targets.zip ti).map fun p =>
      ⟨p.1.img, p.1.cls, p.1.x, p.1.y, p.1.w, p.1.h, (a : ℚ), p.2⟩

/-- Line 307 followed by line 310: multiply a target row elementwise by the
gain vector `[1, 1, s1, s0, s1, s0, 1, 1]` built from the layer's grid
shape `(s0, s1)`. -/
def scaleGain (g2 g3 : ℚ) (t : Tgt) : Tgt :=
  { t with x := t.x * g2, y := t.y * g3, w := t.w * g2, h := t.h * g3 }

/-- Lines 313-314: the anchor-ratio test.  `r` is the elementwise ratio of
the grid-scaled (w, h) to the anchor (w, h); the pair is kept when the
maximum over both dimensions of `max r (1/r)` is strictly below the
threshold. -/
def anchorKeep (anchorT : ℚ) (anc : ℚ × ℚ) (t : Tgt) : Bool :=
  let rw := t.w / anc.1
  let rh := t.h / anc.2
  decide (maxQ (maxQ rw (1 / rw)) (maxQ rh (1 / rh)) < anchorT)

/-- Line 315, `t = t[j]`: flatten the `[na, nt]` grid of anchor-tiled rows
in anchor-major order, keeping only rows passing the anchor-ratio test
against their own anchor. -/
def filterStage (anchorT : ℚ) (ancs : List (ℚ × ℚ))
    (rows : List (List Tgt)) : List Tgt :=
  (ancs.zip rows).flatMap fun p => p.2.filter (anchorKeep anchorT p.1)

/-- Lines 325-327, the left/up duplication test as written in the source:
`(gxy % 1 < g) & (gxy < 1)`.  (The surrounding comments state `gxy > 1`.) -/
def luFlag (g v : ℚ) : Bool := decide (fmod1 v < g) && decide (v < 1)

/-- Lines 330-332, the right/down duplication test on the inverse
coordinate `gxi = gridSize - gxy`: `(gxi % 1 < g) & (gxi > 1)`. -/
def rdFlag (g v : ℚ) : Bool := decide (fmod1 v < g) && decide (1 < v)

/-- Modelled from the spec: the left/up duplication condition of the
neighbour expansion (spec section 4.2 step 4), requiring the grid-scaled
center coordinate to lie in the lower half of its cell and more than one
grid unit from the grid edge on that side, so that the adjacent cell
exists inside the grid.  This matches the source file's own comments
(`dup to left/up if x/y in left/up half & gxy>1`). -/
def luFlagSpec (g v : ℚ) : Bool := decide (fmod1 v < g) && decide (1 < v)

/-- Lines 334-338: duplicate each surviving row into up to five copies —
itself, then the left / up / right / down neighbours whose flags hold —
pairing each copy with its offset (`off * g` rows in the source order). -/
def expandStage (g g2 g3 : ℚ) (ts : List Tgt) : List (Tgt × ℚ × ℚ) :=
  (ts.map fun t => (t, (0 : ℚ), (0 : ℚ)))
    ++ ((ts.filter fun t => luFlag g t.x).map fun t => (t, g, 0))
    ++ ((ts.filter fun t => luFlag g t.y).map fun t => (t, 0, g))
    ++ ((ts.filter fun t => rdFlag g (g2 - t.x)).map fun t => (t, -g, 0))
    ++ ((ts.filter fun t => rdFlag g (g3 - t.y)).map fun t => (t, 0, -g))

/-- Lines 346-347: grid-cell coordinates of one expanded entry — subtract
the offset, cast to int32 (truncation toward zero) and clip to
`[0, shape0-1] × [0, shape1-1]`. -/
def gijOf (shape : ℕ × ℕ) (e : Tgt × ℚ × ℚ) : ℤ × ℤ :=
  (clipZ (truncQ (e.1.x - e.2.1)) 0 ((shape.1 : ℤ) - 1),
   clipZ (truncQ (e.1.y - e.2.2)) 0 ((shape.2 : ℤ) - 1))

/-- Lines 344-354: assemble one layer's assignment record from the
expanded entries.  `g2 = shape1` and `g3 = shape0` are the x and y gains;
`ancs` is this layer's anchor list. -/
def layerRecord (shape : ℕ × ℕ) (ancs : List (ℚ × ℚ)) (g2 g3 : ℚ)
    (expanded : List (Tgt × ℚ × ℚ)) : LayerOut :=
  { tcls := expanded.map fun e => e.1.cls
    tbox := expanded.map fun e =>
      let gij := gijOf shape e
      ⟨e.1.x - (gij.1 : ℚ), e.1.y - (gij.2 : ℚ), e.1.w, e.1.h⟩
    indices := expanded.map fun e =>
      let gij := gijOf shape e
      ⟨truncQ e.1.img, truncQ e.1.ai, gij.1, gij.2⟩
    anch := expanded.map fun e => ancs.getD (truncQ e.1.ai).toNat (0, 0)
    tidxs := expanded.map fun e => e.1.ti
    xywhn := expanded.map fun e => ⟨e.1.x / g2, e.1.y / g3, e.1.w / g2, e.1.h / g3⟩ }

/-- The per-layer body of `build_targets` (lines 302-354): scale the
augmented rows to grid units, filter by anchor ratio, expand to neighbour
cells and assemble the record.  With zero targets the source takes the
`else` branch of line 340 and all sequences come out empty. -/
def buildTargetsLayer (anchorT : ℚ) (ancs : List (ℚ × ℚ)) (shape : ℕ × ℕ)
    (rows : List (List Tgt)) (hasT : Bool) : LayerOut :=
  let g2 : ℚ := (shape.2 : ℚ)
  let g3 : ℚ := (shape.1 : ℚ)
  let scaled := rows.map fun row => row.map (scaleGain g2 g3)
  let expanded :=
    if hasT then
      expandStage (1 / 2) g2 g3 (filterStage anchorT ancs scaled)
    else []
  layerRecord shape ancs g2 g3 expanded

/-- `ComputeLoss.build_targets` (lines 246-357): one `LayerOut` per grid
layer.  `anchors` is the `[nl, na, 2]` anchor tensor and `grids` the list
of per-layer grid shapes. -/
def buildTargets (na nl : ℕ) (overlap : Bool) (anchorT : ℚ)
    (anchors : List (List (ℚ × ℚ))) (grids : List (ℕ × ℕ))
    (targets : List RawT) (batchSize : ℕ) : List LayerOut :=
  let rows := augRows na overlap batchSize targets
  (List.range nl).map fun i =>
    buildTargetsLayer anchorT (anchors.getD i []) (grids.getD i (0, 0)) rows
      (targets.length ≠ 0)

/-! ### Loss aggregator (`segment/tf_loss.py`, `ComputeLoss.__call__` and
`ComputeLoss.single_mask_loss`) -/

/-- One cell of a layer's prediction tensor, already split as in line 165
into (x, y), (w, h), objectness logit, class logits and mask
coefficients. -/
structure PredCell where
  px : ℚ
  py : ℚ
  pw : ℚ
  ph : ℚ
  pobj : ℚ
  pcls : ℕ → ℚ
  pmsk : ℕ → ℚ

instance : Inhabited PredCell :=
  ⟨⟨0, 0, 0, 0, 0, fun _ => 0, fun _ => 0⟩⟩

/-- One layer's dense prediction tensor `[bs, na, gy, gx, 5+nc+nm]`. -/
structure PredLayer where
  bs : ℕ
  na : ℕ
  gy : ℕ
  gx : ℕ
  cell : ℕ → ℕ → ℕ → ℕ → PredCell

instance : Inhabited PredLayer := ⟨⟨0, 0, 0, 0, fun _ _ _ _ => default⟩⟩

/-- The mask prototype tensor `[bs, nm, mask_h, mask_w]`. -/
structure Proto where
  bs : ℕ
  nm : ℕ
  mh : ℕ
  mw : ℕ
  val : ℕ → ℕ → ℕ → ℕ → ℚ

/-- The ground-truth mask tensor; first axis is the batch image in overlap
mode and the global target index otherwise. -/
structure Masks where
  n : ℕ
  mh : ℕ
  mw : ℕ
  val : ℕ → ℕ → ℕ → ℚ

/-- The transcendental kernels of the loss, abstracted: sigmoid, the CIoU
box similarity of `bbox_iou(. , ., CIoU=True)`, the elementwise
from-logits binary cross entropies (possibly focal-wrapped when
`fl_gamma > 0`), and the nearest-neighbour mask resize of line 191. -/
structure Kernels where
  sigmoid : ℚ → ℚ
  ciou : Box4 → Box4 → ℚ
  bceObj : ℚ → ℚ → ℚ
  bceCls : ℚ → ℚ → ℚ
  bceMask : ℚ → ℚ → ℚ
  resize : Masks → ℕ → ℕ → Masks

/-- The attributes of a `ComputeLoss` object set in `__init__`. -/
structure LossState where
  na : ℕ
  nl : ℕ
  nc : ℕ
  nm : ℕ
  anchors : List (List (ℚ × ℚ))
  overlap : Bool
  boxLg : ℚ
  objLg : ℚ
  clsLg : ℚ
  anchorT : ℚ
  autobalance : Bool
  balance : List ℚ
  gr : ℚ
  ssi : ℕ
  grids : List (ℕ × ℕ)
  cp : ℚ
  cn : ℚ
deriving Inhabited

/-- The four loss accumulators of step 2 (lines 145-148). -/
structure Accum where
  box : ℚ
  obj : ℚ
  cls : ℚ
  seg : ℚ
deriving Repr, DecidableEq, Inhabited

/-- The returned 4-component loss vector, in the concatenation order of
line 220: (lbox, lseg, lobj, lcls). -/
structure Vec4 where
  box : ℚ
  seg : ℚ
  obj : ℚ
  cls : ℚ
deriving Repr, DecidableEq, Inhabited

/-- The all-zero target-objectness grid of line 160. -/
def zeroTobj : ℕ → ℕ → ℕ → ℕ → ℚ := fun _ _ _ _ => 0

/-- Line 181, `tf.tensor_scatter_nd_update`: sequentially overwrite the
grid at each index row with the paired value (a later duplicate index
wins). -/
def tobjScatter : (ℕ → ℕ → ℕ → ℕ → ℚ) → List (IndexRow × ℚ) →
    (ℕ → ℕ → ℕ → ℕ → ℚ)
  | f, [] => f
  | f, (ir, v) :: rest =>
      tobjScatter
        (fun b a r c =>
          if b = ir.b.toNat ∧ a = ir.a.toNat ∧ r = ir.gjx.toNat ∧ c = ir.gjy.toNat
          then v else f b a r c)
        rest

/-- Line 207, `BCEobj(tobj, pi[..., 4])`: keras binary cross entropy with
SUM_OVER_BATCH_SIZE reduction, i.e. the mean of the elementwise kernel
over every cell of the layer grid. -/
def objMean (K : Kernels) (tobj : ℕ → ℕ → ℕ → ℕ → ℚ) (pl : PredLayer) : ℚ :=
  (∑ b ∈ Finset.range pl.bs, ∑ a ∈ Finset.range pl.na,
      ∑ r ∈ Finset.range pl.gy, ∑ c ∈ Finset.range pl.gx,
        K.bceObj (tobj b a r c) ((pl.cell b a r c).pobj)) /
    ((pl.bs : ℚ) * pl.na * pl.gy * pl.gx)

/-- Lines 186-187: one-hot encode the target classes to depth `nc` and
take the mean of the elementwise kernel over all `n * nc` entries. -/
def clsMean (K : Kernels) (nc : ℕ) (tcls : List ℚ)
    (cells : List PredCell) : ℚ :=
  ((tcls.zip cells).map fun p =>
      ∑ c ∈ Finset.range nc,
        K.bceCls (if (c : ℤ) = truncQ p.1 then 1 else 0) (p.2.pcls c)).sum /
    ((tcls.length : ℚ) * nc)

/-- Lines 167-169: decode a predicted box from a gathered cell and its
matched anchor with the yolo formulas `pxy = sigmoid*2 - 0.5` and
`pwh = (sigmoid*2)^2 * anchor`. -/
def pboxOf (K : Kernels) (cell : PredCell) (anc : ℚ × ℚ) : Box4 :=
  ⟨K.sigmoid cell.px * 2 - 1 / 2,
   K.sigmoid cell.py * 2 - 1 / 2,
   (K.sigmoid cell.pw * 2) ^ 2 * anc.1,
   (K.sigmoid cell.ph * 2) ^ 2 * anc.2⟩

/-- Step 1a of `single_mask_loss` (line 235): the prototype tensor of one
image flattened to `[nm, mh*mw]`. -/
def protoFlat (mw : ℕ) (protoS : ℕ → ℕ → ℕ → ℚ) : ℕ → ℕ → ℚ :=
  fun m k => protoS m (k / mw) (k % mw)

/-- Step 1b of `single_mask_loss`: the matrix product
`[1, nm] @ [nm, mh*mw]` for one instance's coefficient row. -/
def matFlat (nm mw : ℕ) (pm : ℕ → ℚ) (protoS : ℕ → ℕ → ℕ → ℚ) : ℕ → ℚ :=
  fun k => ∑ m ∈ Finset.range nm, pm m * protoFlat mw protoS m k

/-- Step 1c of `single_mask_loss`: reshape the flat product back to
`[mh, mw]`, giving the instance's predicted mask. -/
def predMaskAt (nm mw : ℕ) (pm : ℕ → ℚ) (protoS : ℕ → ℕ → ℕ → ℚ) :
    ℕ → ℕ → ℚ :=
  fun r c => matFlat nm mw pm protoS (r * mw + c)

/-- Modelled from the spec: `crop_by_box` of spec section 4.1 (the source
imports `crop_mask` from `utils/segment/tf_general.py`, which is not part
of the provided sources).  It zeroes a pixel value when the pixel's
(column, row) position lies outside the box `(x1, y1, x2, y2)`, keeping
positions with `x1 <= c < x2` and `y1 <= r < y2`. -/
def cropPix (box : Box4) (v : ℚ) (r c : ℕ) : ℚ :=
  if box.c0 ≤ (c : ℚ) ∧ (c : ℚ) < box.c2 ∧ box.c1 ≤ (r : ℚ) ∧ (r : ℚ) < box.c3
  then v else 0

/-- `ComputeLoss.single_mask_loss` (lines 222-243) for one image:
`gts`, `pms`, `boxes`, `areas` are the per-instance ground-truth masks,
coefficient rows, crop boxes and normalized areas; `protoS` is the image's
prototype slice of shape `[nm, mh, mw]`.  Per instance, the predicted
mask is the reshaped matrix product, the pixel losses are the elementwise
binary cross entropy, cropped to the box and averaged over all pixels,
and the image loss is the mean over instances of the per-instance value
divided by its area. -/
def singleMaskLoss (K : Kernels) (nm mh mw : ℕ) (gts : List (ℕ → ℕ → ℚ))
    (pms : List (ℕ → ℚ)) (protoS : ℕ → ℕ → ℕ → ℚ) (boxes : List Box4)
    (areas : List ℚ) : ℚ :=
  let per : List ℚ :=
    (gts.zip (pms.zip (boxes.zip areas))).map fun e =>
      let pmaskF := predMaskAt nm mw e.2.1 protoS
      let tml :=
        (∑ r ∈ Finset.range mh, ∑ c ∈ Finset.range mw,
            cropPix e.2.2.1 (K.bceMask (e.1 r c) (pmaskF r c)) r c) /
          ((mh : ℚ) * mw)
      tml / e.2.2.2
  per.sum / (gts.length : ℚ)

/-- One row of the data driving the per-image segmentation loop of lines
192-205: the entry's image index, mask-coefficient row, running target
index, crop box (xywhn scaled to mask resolution and converted to corner
form) and normalized area. -/
structure SegEntry where
  b : ℤ
  pm : ℕ → ℚ
  tid : ℚ
  mxyxy : Box4
  marea : ℚ

/-- Lines 196-205 for one image `bi`: filter the layer's entries to this
image, build the per-instance ground-truth masks (in overlap mode by
equality of the image's colored mask against the running index, otherwise
by gathering the pre-separated mask at the running index) and invoke
`single_mask_loss`. -/
def imageSegLoss (K : Kernels) (overlap : Bool) (nm : ℕ)
    (entries : List SegEntry) (proto : Proto) (mk : Masks) (bi : ℤ) : ℚ :=
  let es := entries.filter fun e => e.b = bi
  let gts : List (ℕ → ℕ → ℚ) :=
    if overlap then
      es.map fun e r c => if mk.val bi.toNat r c = e.tid then 1 else 0
    else
      es.map fun e => mk.val (truncQ e.tid).toNat
  singleMaskLoss K nm proto.mh proto.mw gts (es.map fun e => e.pm)
    (proto.val bi.toNat) (es.map fun e => e.mxyxy) (es.map fun e => e.marea)

/-- Line 195: the layer's segmentation contribution is the sum over the
distinct image indices present in the layer's entries of the per-image
mask loss. -/
def segLayerLoss (K : Kernels) (overlap : Bool) (nm : ℕ)
    (entries : List SegEntry) (proto : Proto) (mk : Masks) : ℚ :=
  ((uniqueFirst (entries.map fun e => e.b)).map
      (imageSegLoss K overlap nm entries proto mk)).sum

/-- Lines 192-194: crop boxes and areas from a layer's normalized boxes,
at mask resolution. -/
def segEntriesOf (lo : LayerOut) (cells : List PredCell) (mw mh : ℕ) :
    List SegEntry :=
  (lo.indices.zip (cells.zip (lo.tidxs.zip lo.xywhn))).map fun e =>
    { b := e.1.b
      pm := e.2.1.pmsk
      tid := e.2.2.1
      mxyxy := xywh2xyxy
        ⟨e.2.2.2.c0 * mw, e.2.2.2.c1 * mh, e.2.2.2.c2 * mw, e.2.2.2.c3 * mh⟩
      marea := e.2.2.2.c2 * e.2.2.2.c3 }

/-- Step 4.2 (line 165): gather the prediction cells addressed by a
layer's index rows. -/
def gatherCells (pl : PredLayer) (lo : LayerOut) : List PredCell :=
  lo.indices.map fun ir => pl.cell ir.b.toNat ir.a.toNat ir.gjx.toNat ir.gjy.toNat

/-- Steps 4.3-4.6 for a layer with at least one target: the box, class and
segmentation increments together with the scattered target-objectness
grid.  Returns (dbox, dcls, dseg, tobj). -/
def layerPos (K : Kernels) (st : LossState) (lo : LayerOut) (pl : PredLayer)
    (proto : Proto) (mk : Masks) : ℚ × ℚ × ℚ × (ℕ → ℕ → ℕ → ℕ → ℚ) :=
  let cells := gatherCells pl lo
  let ious := (cells.zip (lo.anch.zip lo.tbox)).map fun e =>
    K.ciou (pboxOf K e.1 e.2.1) e.2.2
  let dbox := ((ious.map fun v => 1 - v).sum) / (ious.length : ℚ)
  let iou2 := ious.map fun v =>
    let v0 := max v 0
    if st.gr < 1 then (1 - st.gr) + st.gr * v0 else v0
  let tobj := tobjScatter zeroTobj (lo.indices.zip iou2)
  let dcls := if 1 < st.nc then clsMean K st.nc lo.tcls cells else 0
  let dseg := segLayerLoss K st.overlap st.nm
    (segEntriesOf lo cells proto.mw proto.mh) proto mk
  (dbox, dcls, dseg, tobj)

/-- The layer loop of step 4 (lines 156-210), by recursion over the
(assignment record, prediction layer) pairs with the running layer index.
The loop threads the balance list (mutated only under autobalance), the
masks variable (reassigned by the resize of lines 190-191) and the four
accumulators. -/
def runLayers (K : Kernels) (st : LossState) (proto : Proto) :
    ℕ → List (LayerOut × PredLayer) → List ℚ → Masks → Accum →
    Accum × List ℚ × Masks
  | _, [], bal, mk, acc => (acc, bal, mk)
  | i, (lo, pl) :: rest, bal, mk, acc =>
      let n := lo.indices.length
      let mk2 :=
        if n ≠ 0 ∧ (mk.mh, mk.mw) ≠ (proto.mh, proto.mw)
        then K.resize mk proto.mh proto.mw else mk
      let step : ℚ × ℚ × ℚ × (ℕ → ℕ → ℕ → ℕ → ℚ) :=
        if n = 0 then (0, 0, 0, zeroTobj) else layerPos K st lo pl proto mk2
      let obji := objMean K step.2.2.2 pl
      let acc2 : Accum :=
        { box := acc.box + step.1
          cls := acc.cls + step.2.1
          seg := acc.seg + step.2.2.1
          obj := acc.obj + obji * bal.getD i 0 }
      let bal2 :=
        if st.autobalance
        then bal.set i (bal.getD i 0 * (9999 / 10000) + (1 / 10000) / obji)
        else bal
      runLayers K st proto (i + 1) rest bal2 mk2 acc2

/-- The raw result of the layer loop inside `ComputeLoss.__call__`:
accumulators, final balance list and final masks variable. -/
def callRaw (K : Kernels) (st : LossState) (preds : List PredLayer)
    (proto : Proto) (targets : List RawT) (mk : Masks) :
    Accum × List ℚ × Masks :=
  let bsize := (preds.headD default).bs
  let los := buildTargets st.na st.nl st.overlap st.anchorT st.anchors
    st.grids targets bsize
  runLayers K st proto 0 (los.zip preds) st.balance mk ⟨0, 0, 0, 0⟩

/-- The accumulated (box, obj, cls, seg) sums of one `__call__`, before
the gain scaling of lines 215-218. -/
def callAccum (K : Kernels) (st : LossState) (preds : List PredLayer)
    (proto : Proto) (targets : List RawT) (mk : Masks) : Accum :=
  (callRaw K st preds proto targets mk).1

/-- `ComputeLoss.__call__` (lines 128-220): run the layer loop, apply the
autobalance renormalization of lines 212-213 when enabled, scale the
accumulators by their gains (the segmentation sum by `boxLg / bs` with
`bs` the proto batch size), and return the updated object state, the
total `loss * bs` and the 4-component vector (lbox, lseg, lobj, lcls). -/
def computeCall (K : Kernels) (st : LossState) (preds : List PredLayer)
    (proto : Proto) (targets : List RawT) (mk : Masks) :
    LossState × ℚ × Vec4 :=
  let raw := callRaw K st preds proto targets mk
  let bal := raw.2.1
  let bal2 := if st.autobalance then bal.map fun x => x / bal.getD st.ssi 0 else bal
  let bs : ℚ := (proto.bs : ℚ)
  let lbox := raw.1.box * st.boxLg
  let lobj := raw.1.obj * st.objLg
  let lcls := raw.1.cls * st.clsLg
  let lseg := raw.1.seg * (st.boxLg / bs)
  let loss := lbox + lobj + lcls + lseg
  ({ st with balance := bal2 }, loss * bs, ⟨lbox, lseg, lobj, lcls⟩)

/-- The objectness sum produced by the layer loop when every layer has
zero targets: each layer contributes the elementwise-mean cross entropy
of its prediction grid against the all-zero target grid, weighted by that
layer's balance factor. -/
def objZeroSum (K : Kernels) (bal : List ℚ) : ℕ → List PredLayer → ℚ
  | _, [] => 0
  | i, pl :: rest =>
      objMean K zeroTobj pl * bal.getD i 0 + objZeroSum K bal (i + 1) rest

/-! ### Concrete fixtures used by witness theorems -/

/-- A concrete kernel record for witness evaluations. -/
def wK : Kernels :=
  { sigmoid := fun q => q
    ciou := fun _ _ => 1 / 2
    bceObj := fun t p => t + p
    bceCls := fun t p => t + p
    bceMask := fun t p => t + p
    resize := fun m _ _ => m }

/-- A concrete loss configuration with autobalance off. -/
def wSt : LossState :=
  { na := 1, nl := 1, nc := 2, nm := 1
    anchors := [[(1, 1)]], overlap := true
    boxLg := 1, objLg := 1, clsLg := 1, anchorT := 4
    autobalance := false, balance := [4], gr := 1, ssi := 0
    grids := [(4, 4)], cp := 1, cn := 0 }

/-- A concrete prototype tensor (batch 2, one coefficient, 1 by 1). -/
def wProto : Proto := ⟨2, 1, 1, 1, fun b _ _ _ => (b : ℚ)⟩

/-- A second prototype differing from `wProto` only at image 1. -/
def wProtoB : Proto := ⟨2, 1, 1, 1, fun b _ _ _ => if b = 1 then 7 else (b : ℚ)⟩

/-- A concrete ground-truth mask tensor. -/
def wMasks : Masks := ⟨2, 1, 1, fun _ _ _ => 1⟩

/-- A second mask tensor differing from `wMasks` only at index 1. -/
def wMasksB : Masks := ⟨2, 1, 1, fun b _ _ => if b = 1 then 5 else 1⟩

/-- A concrete segmentation entry living in image 0. -/
def wSegEntry : SegEntry :=
  { b := 0, pm := fun _ => 1, tid := 1, mxyxy := ⟨0, 0, 1, 1⟩, marea := 1 }

/-- A concrete one-target label list: image 0, class 0, center at
(2.3, 2.3) in the 80-cell grid (normalized 23/800), box one grid cell in
size. -/
def wTargets : List RawT := [⟨0, 0, 23 / 800, 23 / 800, 1 / 80, 1 / 80⟩]

/-- The layer records built from `wTargets` on a single 80 by 80 layer
with one unit anchor. -/
def wLayers : List LayerOut :=
  buildTargets 1 1 false 4 [[(1, 1)]] [(80, 80)] wTargets 1

/-! ### Helper lemmas -/

theorem minQ_eq (a b : ℚ) : minQ a b = min a b := (min_def a b).symm

theorem maxQ_eq (a b : ℚ) : maxQ a b = max a b := (max_def a b).symm

theorem minZ_eq (a b : ℤ) : minZ a b = min a b := (min_def a b).symm

theorem maxZ_eq (a b : ℤ) : maxZ a b = max a b := (max_def a b).symm

theorem ratFloor_eq (q : ℚ) : q.floor = ⌊q⌋ :=
  (Rat.floor_def' q).trans Rat.floor_def.symm

theorem clipQ_mem (v lo hi : ℚ) (h : lo ≤ hi) :
    lo ≤ clipQ v lo hi ∧ clipQ v lo hi ≤ hi := by
  unfold clipQ
  rw [minQ_eq, maxQ_eq]
  exact ⟨le_min (le_max_right v lo) h, min_le_right _ _⟩

theorem clipZ_mem (v lo hi : ℤ) (h : lo ≤ hi) :
    lo ≤ clipZ v lo hi ∧ clipZ v lo hi ≤ hi := by
  unfold clipZ
  rw [minZ_eq, maxZ_eq]
  exact ⟨le_min (le_max_right v lo) h, min_le_right _ _⟩

theorem xywh2xyxy_xyxy2xywh (b : Box4) : xywh2xyxy (xyxy2xywh b) = b := by
  cases b
  simp only [xyxy2xywh, xywh2xyxy, Box4.mk.injEq]
  exact ⟨by ring, by ring, by ring, by ring⟩

theorem xyxy2xywh_xywh2xyxy (b : Box4) : xyxy2xywh (xywh2xyxy b) = b := by
  cases b
  simp only [xyxy2xywh, xywh2xyxy, Box4.mk.injEq]
  exact ⟨by ring, by ring, by ring, by ring⟩

/-! ### Claim theorems: geometry -/

/-- C8: the corner-to-center and center-to-corner conversions are mutually
inverse — mapping any n-by-4 box tensor through `xyxy2xywh` then
`xywh2xyxy` (and in the other order) returns the original boxes exactly
(in exact rational arithmetic, hence up to floating rounding in floats). -/
theorem box_conversion_roundtrip (l : List Box4) :
    (l.map xyxy2xywh).map xywh2xyxy = l ∧
      (l.map xywh2xyxy).map xyxy2xywh = l := by
  constructor
  · induction l with
    | nil => rfl
    | cons hd tl ih => simp [xywh2xyxy_xyxy2xywh, ih]
  · induction l with
    | nil => rfl
    | cons hd tl ih => simp [xyxy2xywh_xywh2xyxy, ih]

/-- C7 counterexample: rescaling the box (1000, 10, 1000, 10) from a
640x640 letterboxed image to a 320x320 destination clamps the x
coordinates to exactly 320, the destination width itself — so the claimed
strict upper bound (every returned x strictly below the width) is false:
the clipping interval is closed, not half-open. -/
theorem scaleBoxes_not_halfOpen :
    (scaleBoxes (640, 640) ⟨1000, 10, 1000, 10⟩ (320, 320) none).c0 = 320 ∧
      ¬ (scaleBoxes (640, 640) ⟨1000, 10, 1000, 10⟩ (320, 320) none).c0 < 320 := by
  constructor
  · with_unfolding_all decide
  · with_unfolding_all decide

/-- C7 (amended): `scale_boxes` performs the affine undo of the letterbox
resize/pad (subtract the padding, divide by the gain) and then clamps
every output coordinate into the closed interval [0, dstShape]: each
returned x coordinate lies between 0 and the destination width inclusive,
and each returned y coordinate between 0 and the destination height
inclusive. -/
theorem scaleBoxes_closed_bounds (img1 : ℚ × ℚ) (box : Box4) (img0 : ℚ × ℚ)
    (rp : Option (ℚ × ℚ × ℚ)) (hW : 0 ≤ img0.2) (hH : 0 ≤ img0.1) :
    (0 ≤ (scaleBoxes img1 box img0 rp).c0 ∧ (scaleBoxes img1 box img0 rp).c0 ≤ img0.2) ∧
    (0 ≤ (scaleBoxes img1 box img0 rp).c1 ∧ (scaleBoxes img1 box img0 rp).c1 ≤ img0.1) ∧
    (0 ≤ (scaleBoxes img1 box img0 rp).c2 ∧ (scaleBoxes img1 box img0 rp).c2 ≤ img0.2) ∧
    (0 ≤ (scaleBoxes img1 box img0 rp).c3 ∧ (scaleBoxes img1 box img0 rp).c3 ≤ img0.1) := by
  unfold scaleBoxes
  exact ⟨clipQ_mem _ _ _ hW, clipQ_mem _ _ _ hH, clipQ_mem _ _ _ hW, clipQ_mem _ _ _ hH⟩

/-- Witness for the amended C7 theorem at a concrete input. -/
theorem scaleBoxes_closed_bounds_witness :
    (0 : ℚ) ≤ 320 ∧
      (0 ≤ (scaleBoxes (640, 640) ⟨1000, 10, 1000, 10⟩ (320, 320) none).c0 ∧
        (scaleBoxes (640, 640) ⟨1000, 10, 1000, 10⟩ (320, 320) none).c0 ≤ 320) :=
  ⟨by norm_num,
    (scaleBoxes_closed_bounds (640, 640) ⟨1000, 10, 1000, 10⟩ (320, 320) none
      (by norm_num) (by norm_num)).1⟩

/-! ### Claim theorems: loss finalization and statelessness -/

theorem runLayers_balance_const (K : Kernels) (st : LossState) (proto : Proto)
    (h : st.autobalance = false) :
    ∀ (pairs : List (LayerOut × PredLayer)) (i : ℕ) (bal : List ℚ)
      (mk : Masks) (acc : Accum),
      (runLayers K st proto i pairs bal mk acc).2.1 = bal := by
  intro pairs
  induction pairs with
  | nil => intro i bal mk acc; rfl
  | cons hd tl ih =>
      intro i bal mk acc
      obtain ⟨lo, pl⟩ := hd
      simp only [runLayers, h, Bool.false_eq_true, if_false]
      exact ih _ _ _ _

/-- C3: at finalization, `__call__` multiplies the accumulated box, object
and class sums by their gains, the accumulated segmentation sum by the box
gain divided by the batch size, returns as first result the sum of these
four scaled components multiplied by the batch size, and as second result
the 4-component vector (lbox, lseg, lobj, lcls) carrying only the gain
scaling, without the batch-size factor. -/
theorem finalize_scaling (K : Kernels) (st : LossState) (preds : List PredLayer)
    (proto : Proto) (targets : List RawT) (mk : Masks) :
    (computeCall K st preds proto targets mk).2.1 =
        (proto.bs : ℚ) *
          ((callAccum K st preds proto targets mk).box * st.boxLg +
            (callAccum K st preds proto targets mk).obj * st.objLg +
            (callAccum K st preds proto targets mk).cls * st.clsLg +
            (callAccum K st preds proto targets mk).seg * (st.boxLg / (proto.bs : ℚ))) ∧
      (computeCall K st preds proto targets mk).2.2 =
        ⟨(callAccum K st preds proto targets mk).box * st.boxLg,
         (callAccum K st preds proto targets mk).seg * (st.boxLg / (proto.bs : ℚ)),
         (callAccum K st preds proto targets mk).obj * st.objLg,
         (callAccum K st preds proto targets mk).cls * st.clsLg⟩ := by
  constructor
  · simp only [computeCall, callAccum]
    ring
  · rfl

/-- C9: with autobalance off, a call to `__call__` mutates no attribute of
the loss object — the returned state equals the input state — and hence a
second call with identical inputs and configuration returns the identical
result. -/
theorem call_no_mutation (K : Kernels) (st : LossState) (preds : List PredLayer)
    (proto : Proto) (targets : List RawT) (mk : Masks)
    (h : st.autobalance = false) :
    (computeCall K st preds proto targets mk).1 = st ∧
      computeCall K (computeCall K st preds proto targets mk).1 preds proto targets mk =
        computeCall K st preds proto targets mk := by
  have h1 : (computeCall K st preds proto targets mk).1 = st := by
    simp only [computeCall, callRaw, h, Bool.false_eq_true, if_false]
    rw [runLayers_balance_const K st proto h, ← h]
  exact ⟨h1, by rw [h1]⟩

/-- Witness for the C9 theorem at concrete inputs. -/
theorem call_no_mutation_witness :
    wSt.autobalance = false ∧
      (computeCall wK wSt [] wProto [] wMasks).1 = wSt :=
  ⟨rfl, (call_no_mutation wK wSt [] wProto [] wMasks rfl).1⟩

/-! ### Claim C2: zero ground-truth instances -/

theorem getD_set_ne (l : List ℚ) (i j : ℕ) (v d : ℚ) (h : i ≠ j) :
    (l.set i v).getD j d = l.getD j d := by
  simp [List.getD_eq_getElem?_getD, List.getElem?_set_ne h]

theorem objZeroSum_set (K : Kernels) (bal : List ℚ) (v : ℚ) (i : ℕ) :
    ∀ (pls : List PredLayer) (j : ℕ), i < j →
      objZeroSum K (bal.set i v) j pls = objZeroSum K bal j pls := by
  intro pls
  induction pls with
  | nil => intro j hj; rfl
  | cons hd tl ih =>
      intro j hj
      simp only [objZeroSum]
      rw [getD_set_ne bal i j v 0 (Nat.ne_of_lt hj), ih (j + 1) (Nat.lt_succ_of_lt hj)]

theorem runLayers_empty_indices (K : Kernels) (st : LossState) (proto : Proto) :
    ∀ (pairs : List (LayerOut × PredLayer)),
      (∀ p ∈ pairs, p.1.indices = ([] : List IndexRow)) →
      ∀ (i : ℕ) (bal : List ℚ) (mk : Masks) (acc : Accum),
        (runLayers K st proto i pairs bal mk acc).1 =
          ⟨acc.box, acc.obj + objZeroSum K bal i (pairs.map Prod.snd),
            acc.cls, acc.seg⟩ := by
  intro pairs
  induction pairs with
  | nil =>
      intro _ i bal mk acc
      simp [runLayers, objZeroSum]
  | cons hd tl ih =>
      intro hall i bal mk acc
      obtain ⟨lo, pl⟩ := hd
      have hlo : lo.indices = [] := hall (lo, pl) (by simp)
      have htl : ∀ p ∈ tl, p.1.indices = ([] : List IndexRow) := fun p hp =>
        hall p (List.mem_cons_of_mem _ hp)
      by_cases hab : st.autobalance = true
      · simp only [runLayers, hlo, List.length_nil, ne_eq, not_true_eq_false,
          false_and, reduceIte, hab, ite_true, ite_false]
        rw [ih htl]
        rw [objZeroSum_set K bal _ i _ (i + 1) (Nat.lt_succ_self i)]
        simp only [List.map_cons, objZeroSum, Accum.mk.injEq]
        exact ⟨by ring, by ring, by ring, by ring⟩
      · simp only [runLayers, hlo, List.length_nil, ne_eq, not_true_eq_false,
          false_and, reduceIte, hab, ite_true, ite_false, Bool.false_eq_true]
        rw [ih htl]
        simp only [List.map_cons, objZeroSum, Accum.mk.injEq,
          Bool.false_eq_true, ite_false]
        exact ⟨by ring, by ring, by ring, by ring⟩

theorem buildTargets_nil (na nl : ℕ) (overlap : Bool) (anchorT : ℚ)
    (anchors : List (List (ℚ × ℚ))) (grids : List (ℕ × ℕ)) (bs : ℕ) :
    ∀ lo ∈ buildTargets na nl overlap anchorT anchors grids [] bs,
      lo = ⟨[], [], [], [], [], []⟩ := by
  intro lo hlo
  simp only [buildTargets, List.mem_map] at hlo
  obtain ⟨i, _, rfl⟩ := hlo
  rfl

theorem map_snd_zip_take {α β : Type} (l1 : List α) (l2 : List β) :
    (l1.zip l2).map Prod.snd = l2.take l1.length := by
  induction l1 generalizing l2 with
  | nil => simp
  | cons hd tl ih =>
      cases l2 with
      | nil => simp
      | cons hd2 tl2 => simp [ih]

theorem buildTargets_length (na nl : ℕ) (overlap : Bool) (anchorT : ℚ)
    (anchors : List (List (ℚ × ℚ))) (grids : List (ℕ × ℕ))
    (targets : List RawT) (bs : ℕ) :
    (buildTargets na nl overlap anchorT anchors grids targets bs).length = nl := by
  simp [buildTargets]

/-- C2: for a batch with zero ground-truth instances, `build_targets`
returns zero-length sequences (tcls, tbox, indices, anch, tidxs, xywhn)
for every detection layer, and the loss call returns box, class and
segmentation components that are exactly 0 while the objectness component
is still computed — it is the balance-weighted sum, over the processed
layers, of the elementwise-mean cross entropy of each prediction grid
against the all-zero target grid, scaled by the objectness gain. -/
theorem zero_targets_loss (K : Kernels) (st : LossState) (preds : List PredLayer)
    (proto : Proto) (mk : Masks) :
    (∀ bs : ℕ, ∀ lo ∈ buildTargets st.na st.nl st.overlap st.anchorT
        st.anchors st.grids [] bs, lo = ⟨[], [], [], [], [], []⟩) ∧
      (computeCall K st preds proto [] mk).2.2.box = 0 ∧
      (computeCall K st preds proto [] mk).2.2.seg = 0 ∧
      (computeCall K st preds proto [] mk).2.2.cls = 0 ∧
      (computeCall K st preds proto [] mk).2.2.obj =
        objZeroSum K st.balance 0 (preds.take st.nl) * st.objLg := by
  have hA : (callRaw K st preds proto [] mk).1 =
      ⟨0, 0 + objZeroSum K st.balance 0 (preds.take st.nl), 0, 0⟩ := by
    simp only [callRaw]
    rw [runLayers_empty_indices K st proto _ ?hemp]
    case hemp =>
      intro p hp
      have h1 := (List.of_mem_zip hp).1
      rw [buildTargets_nil st.na st.nl st.overlap st.anchorT st.anchors
        st.grids _ p.1 h1]
    rw [map_snd_zip_take, buildTargets_length]
  refine ⟨fun bs => buildTargets_nil st.na st.nl st.overlap st.anchorT
    st.anchors st.grids bs, ?_, ?_, ?_, ?_⟩ <;>
    simp only [computeCall, callRaw] at hA ⊢ <;> rw [hA] <;> ring

/-- Witness for the C2 theorem at concrete inputs. -/
theorem zero_targets_loss_witness :
    (computeCall wK wSt [] wProto [] wMasks).2.2.box = 0 ∧
      (buildTargets wSt.na wSt.nl wSt.overlap wSt.anchorT wSt.anchors
          wSt.grids [] 2).getD 0 default = ⟨[], [], [], [], [], []⟩ :=
  ⟨(zero_targets_loss wK wSt [] wProto wMasks).2.1,
    (zero_targets_loss wK wSt [] wProto wMasks).1 2 _
      (by with_unfolding_all decide)⟩

/-! ### Claim C4: the anchor-ratio filter -/

theorem anchorKeep_iff (anchorT : ℚ) (anc : ℚ × ℚ) (t : Tgt) :
    anchorKeep anchorT anc t = true ↔
      max (max (t.w / anc.1) (anc.1 / t.w)) (max (t.h / anc.2) (anc.2 / t.h)) <
        anchorT := by
  unfold anchorKeep
  rw [decide_eq_true_eq, maxQ_eq, maxQ_eq, maxQ_eq, one_div_div, one_div_div]

/-- C4: a (target, anchor) pair survives the anchor filter of
`build_targets` exactly when the maximum over both dimensions of
`max r (1/r)` is strictly below the threshold `anchor_t`, where `r` is the
elementwise ratio of the grid-scaled target (w, h) to the anchor (w, h)
(so `1/r` is the anchor-to-target ratio); the positivity hypotheses
restrict to the regime where exact rational division agrees with the
floating-point evaluation of the source. -/
theorem anchor_filter_iff (anchorT : ℚ) (ancs : List (ℚ × ℚ))
    (rows : List (List Tgt)) (t : Tgt)
    (_hanc : ∀ anc ∈ ancs, 0 < anc.1 ∧ 0 < anc.2)
    (_hwh : ∀ row ∈ rows, ∀ u ∈ row, 0 < u.w ∧ 0 < u.h) :
    t ∈ filterStage anchorT ancs rows ↔
      ∃ p ∈ ancs.zip rows, t ∈ p.2 ∧
        max (max (t.w / p.1.1) (p.1.1 / t.w)) (max (t.h / p.1.2) (p.1.2 / t.h)) <
          anchorT := by
  unfold filterStage
  rw [List.mem_flatMap]
  constructor
  · rintro ⟨p, hp, hmem⟩
    rw [List.mem_filter] at hmem
    exact ⟨p, hp, hmem.1, (anchorKeep_iff anchorT p.1 t).mp hmem.2⟩
  · rintro ⟨p, hp, htm, hlt⟩
    exact ⟨p, hp, List.mem_filter.mpr ⟨htm, (anchorKeep_iff anchorT p.1 t).mpr hlt⟩⟩

/-- Witness for the C4 theorem: with a unit anchor and threshold 4, a
target of grid-scaled size 3.99 is included while one of size 4.01 is
excluded. -/
theorem anchor_filter_iff_witness :
    (⟨0, 0, 5, 5, 399 / 100, 399 / 100, 0, 0⟩ : Tgt) ∈
        filterStage 4 [(1, 1)]
          [[⟨0, 0, 5, 5, 399 / 100, 399 / 100, 0, 0⟩,
            ⟨0, 0, 5, 5, 401 / 100, 401 / 100, 0, 0⟩]] ∧
      (⟨0, 0, 5, 5, 401 / 100, 401 / 100, 0, 0⟩ : Tgt) ∉
        filterStage 4 [(1, 1)]
          [[⟨0, 0, 5, 5, 399 / 100, 399 / 100, 0, 0⟩,
            ⟨0, 0, 5, 5, 401 / 100, 401 / 100, 0, 0⟩]] := by
  constructor
  · exact (anchor_filter_iff 4 [(1, 1)] _ _
      (by with_unfolding_all decide) (by with_unfolding_all decide)).mpr
      ⟨((1, 1), [⟨0, 0, 5, 5, 399 / 100, 399 / 100, 0, 0⟩,
          ⟨0, 0, 5, 5, 401 / 100, 401 / 100, 0, 0⟩]),
        by with_unfolding_all decide, by with_unfolding_all decide,
        by simp only [max_lt_iff]; norm_num⟩
  · intro hmem
    obtain ⟨p, hp, htm, hlt⟩ := (anchor_filter_iff 4 [(1, 1)] _ _
      (by with_unfolding_all decide) (by with_unfolding_all decide)).mp hmem
    simp only [List.zip_cons_cons, List.zip_nil_left, List.mem_singleton] at hp
    subst hp
    simp only [max_lt_iff] at hlt
    norm_num at hlt

/-! ### Claim C5: the single-image mask loss -/

/-- C5: `single_mask_loss` computes, for one image, each instance's
predicted mask as the matrix product of its length-M coefficient vector
with the prototype flattened to M by (protoH*protoW), reshaped back to
(protoH, protoW) — pointwise the linear combination of the prototype maps;
the per-instance scalar is the mean over all spatial positions of the
elementwise from-logits binary cross entropy after zeroing pixels outside
the instance's bounding box; and the returned image loss is the mean over
instances of each per-instance scalar divided by that instance's
normalized box area. -/
theorem single_mask_loss_formula (K : Kernels) (nm mh mw : ℕ)
    (gts : List (ℕ → ℕ → ℚ)) (pms : List (ℕ → ℚ)) (protoS : ℕ → ℕ → ℕ → ℚ)
    (boxes : List Box4) (areas : List ℚ) :
    singleMaskLoss K nm mh mw gts pms protoS boxes areas =
      ((gts.zip (pms.zip (boxes.zip areas))).map fun e =>
          ((∑ r ∈ Finset.range mh, ∑ c ∈ Finset.range mw,
              cropPix e.2.2.1
                (K.bceMask (e.1 r c)
                  (∑ m ∈ Finset.range nm, e.2.1 m * protoS m r c)) r c) /
            ((mh : ℚ) * mw)) / e.2.2.2).sum / (gts.length : ℚ) := by
  unfold singleMaskLoss
  have hmap : ∀ e ∈ gts.zip (pms.zip (boxes.zip areas)),
      ((∑ r ∈ Finset.range mh, ∑ c ∈ Finset.range mw,
          cropPix e.2.2.1
            (K.bceMask (e.1 r c) (predMaskAt nm mw e.2.1 protoS r c)) r c) /
        ((mh : ℚ) * mw)) / e.2.2.2 =
      ((∑ r ∈ Finset.range mh, ∑ c ∈ Finset.range mw,
          cropPix e.2.2.1
            (K.bceMask (e.1 r c)
              (∑ m ∈ Finset.range nm, e.2.1 m * protoS m r c)) r c) /
        ((mh : ℚ) * mw)) / e.2.2.2 := by
    intro e _
    congr 2
    apply Finset.sum_congr rfl
    intro r _
    apply Finset.sum_congr rfl
    intro c hc
    have hcw : c < mw := Finset.mem_range.mp hc
    have hmw : 0 < mw := Nat.lt_of_le_of_lt (Nat.zero_le c) hcw
    have h1 : (r * mw + c) / mw = r := by
      rw [Nat.mul_comm r mw, Nat.mul_add_div hmw, Nat.div_eq_of_lt hcw,
        Nat.add_zero]
    have h2 : (r * mw + c) % mw = c := by
      rw [Nat.mul_comm r mw, Nat.mul_add_mod, Nat.mod_eq_of_lt hcw]
    simp only [predMaskAt, matFlat, protoFlat, h1, h2]
  rw [List.map_congr_left hmap]

/-! ### Claim C6: per-image independence of the segmentation loss -/

theorem mem_uniqueFirst_aux (a : ℤ) :
    ∀ (n : ℕ) (l : List ℤ), l.length ≤ n → a ∈ uniqueFirst l → a ∈ l := by
  intro n
  induction n with
  | zero =>
      intro l hl h
      cases l with
      | nil => simp [uniqueFirst] at h
      | cons x xs => simp at hl
  | succ n ih =>
      intro l hl h
      cases l with
      | nil => simp [uniqueFirst] at h
      | cons x xs =>
          rw [uniqueFirst] at h
          rcases List.mem_cons.mp h with h1 | h2
          · exact h1 ▸ List.mem_cons_self x xs
          · have hlen : (xs.filter (fun y => y ≠ x)).length ≤ n :=
              le_trans (List.length_filter_le _ _) (Nat.le_of_succ_le_succ hl)
            exact List.mem_cons_of_mem _
              (List.mem_of_mem_filter (ih _ hlen h2))

theorem mem_uniqueFirst (a : ℤ) (l : List ℤ) (h : a ∈ uniqueFirst l) :
    a ∈ l :=
  mem_uniqueFirst_aux a l.length l le_rfl h

/-- C6: an image with zero matched instances in a layer is never visited
by the per-image segmentation loop (its index is absent from the
iterated unique image list, so `single_mask_loss` is never invoked for
it and no division by a zero instance count occurs), and the layer's
segmentation loss does not depend on that image's prototype slice or
mask data — replacing them arbitrarily leaves every other image's
contribution, and the total, unchanged. -/
theorem seg_loss_absent_image (K : Kernels) (overlap : Bool) (nm : ℕ)
    (entries : List SegEntry) (P Pb : Proto) (M Mb : Masks) (x : ℤ)
    (hx : ∀ e ∈ entries, e.b ≠ x)
    (hxnn : 0 ≤ x) (hbnn : ∀ e ∈ entries, 0 ≤ e.b)
    (hPd : P.mh = Pb.mh) (hPw : P.mw = Pb.mw)
    (hP : ∀ i : ℕ, i ≠ x.toNat → P.val i = Pb.val i)
    (hM : ∀ i : ℕ, i ≠ x.toNat → M.val i = Mb.val i)
    (htid : overlap = false →
      ∀ e ∈ entries, (truncQ e.tid).toNat ≠ x.toNat) :
    x ∉ uniqueFirst (entries.map fun e => e.b) ∧
      segLayerLoss K overlap nm entries P M =
        segLayerLoss K overlap nm entries Pb Mb := by
  constructor
  · intro hmem
    obtain ⟨e0, he0, hbe⟩ := List.mem_map.mp (mem_uniqueFirst _ _ hmem)
    exact hx e0 he0 hbe
  · have himg : ∀ bi ∈ uniqueFirst (entries.map fun e => e.b),
        imageSegLoss K overlap nm entries P M bi =
          imageSegLoss K overlap nm entries Pb Mb bi := by
      intro bi hbi
      obtain ⟨e0, he0, hbe⟩ := List.mem_map.mp (mem_uniqueFirst _ _ hbi)
      have hbix : bi ≠ x := hbe ▸ hx e0 he0
      have hbinn : 0 ≤ bi := hbe ▸ hbnn e0 he0
      have hne : bi.toNat ≠ x.toNat := by
        intro hEq
        apply hbix
        rw [← Int.toNat_of_nonneg hbinn, ← Int.toNat_of_nonneg hxnn, hEq]
      unfold imageSegLoss
      cases overlap with
      | true =>
          simp only [ite_true]
          rw [hM bi.toNat hne, hP bi.toNat hne, hPd, hPw]
      | false =>
          simp only [Bool.false_eq_true, ite_false]
          have hgts :
              (entries.filter fun e => e.b = bi).map
                  (fun e => M.val (truncQ e.tid).toNat) =
                (entries.filter fun e => e.b = bi).map
                  (fun e => Mb.val (truncQ e.tid).toNat) := by
            apply List.map_congr_left
            intro e he
            rw [hM _ (htid rfl e (List.mem_of_mem_filter he))]
          rw [hgts, hP bi.toNat hne, hPd, hPw]
    unfold segLayerLoss
    rw [List.map_congr_left himg]

/-- Witness for the C6 theorem: a single entry in image 0, with image 1
empty; the prototype and masks are perturbed at index 1 only. -/
theorem seg_loss_absent_image_witness :
    (1 : ℤ) ∉ uniqueFirst ([wSegEntry].map fun e => e.b) ∧
      segLayerLoss wK true 1 [wSegEntry] wProto wMasks =
        segLayerLoss wK true 1 [wSegEntry] wProtoB wMasksB :=
  seg_loss_absent_image wK true 1 [wSegEntry] wProto wProtoB wMasks wMasksB 1
    (by with_unfolding_all decide) (by decide) (by with_unfolding_all decide)
    rfl rfl
    (by
      intro i hi
      funext m r c
      simp only [wProto, wProtoB]
      rw [if_neg (by simpa using hi)])
    (by
      intro i hi
      funext r c
      simp only [wMasks, wMasksB]
      rw [if_neg (by simpa using hi)])
    (by intro h; exact absurd h (by decide))

/-! ### Claim C10: index bounds of the assignment records -/

theorem truncQ_natCast (k : ℕ) : truncQ (k : ℚ) = (k : ℤ) := by
  unfold truncQ
  rw [if_pos (by positivity), ratFloor_eq, Int.floor_natCast]

theorem mem_expandStage (g g2 g3 : ℚ) (ts : List Tgt) (e : Tgt × ℚ × ℚ)
    (h : e ∈ expandStage g g2 g3 ts) : e.1 ∈ ts := by
  unfold expandStage at h
  rcases List.mem_append.mp h with h | h5
  rotate_left
  · obtain ⟨t, ht, rfl⟩ := List.mem_map.mp h5
    exact List.mem_of_mem_filter ht
  rcases List.mem_append.mp h with h | h4
  rotate_left
  · obtain ⟨t, ht, rfl⟩ := List.mem_map.mp h4
    exact List.mem_of_mem_filter ht
  rcases List.mem_append.mp h with h | h3
  rotate_left
  · obtain ⟨t, ht, rfl⟩ := List.mem_map.mp h3
    exact List.mem_of_mem_filter ht
  rcases List.mem_append.mp h with h1 | h2
  · obtain ⟨t, ht, rfl⟩ := List.mem_map.mp h1
    exact ht
  · obtain ⟨t, ht, rfl⟩ := List.mem_map.mp h2
    exact List.mem_of_mem_filter ht

theorem mem_filterStage_subset (aT : ℚ) (ancs : List (ℚ × ℚ))
    (rows : List (List Tgt)) (t : Tgt) (h : t ∈ filterStage aT ancs rows) :
    ∃ row ∈ rows, t ∈ row := by
  unfold filterStage at h
  rw [List.mem_flatMap] at h
  obtain ⟨p, hp, hmem⟩ := h
  exact ⟨p.2, (List.of_mem_zip hp).2, List.mem_of_mem_filter hmem⟩

theorem augRows_fields (na : ℕ) (ov : Bool) (bs : ℕ) (targets : List RawT)
    (row : List Tgt) (hrow : row ∈ augRows na ov bs targets)
    (t : Tgt) (ht : t ∈ row) :
    (∃ a : ℕ, a < na ∧ t.ai = (a : ℚ)) ∧ ∃ rt ∈ targets, t.img = rt.img := by
  unfold augRows at hrow
  rw [List.mem_map] at hrow
  obtain ⟨a, ha, rfl⟩ := hrow
  rw [List.mem_map] at ht
  obtain ⟨p, hp, rfl⟩ := ht
  refine ⟨⟨a, List.mem_range.mp ha, ?_⟩, ⟨p.1, (List.of_mem_zip hp).1, ?_⟩⟩ <;> rfl

/-- C10: assuming every target's image index is an integer in
[0, batch_size-1] and every grid dimension is at least 1, every index
4-tuple (image, anchor, gridX, gridY) in every layer's assignment record
is within bounds for that layer's [batch, anchors, grid, grid] prediction
tensor: the image index lies in [0, bs-1], the anchor index in [0, na-1]
by construction, and both grid coordinates are clipped into
[0, gridDim-1], even for targets whose centers fall outside [0, 1] — so
the prediction gather and the objectness scatter never index out of
bounds. -/
theorem indices_in_bounds (na nl : ℕ) (overlap : Bool) (anchorT : ℚ)
    (anchors : List (List (ℚ × ℚ))) (grids : List (ℕ × ℕ))
    (targets : List RawT) (bs : ℕ)
    (himg : ∀ rt ∈ targets, ∃ k : ℕ, rt.img = (k : ℚ) ∧ k < bs)
    (hgrid : ∀ s ∈ grids, 1 ≤ s.1 ∧ 1 ≤ s.2)
    (hlen : nl ≤ grids.length) :
    ∀ i < nl, ∀ e ∈ ((buildTargets na nl overlap anchorT anchors grids
        targets bs).getD i default).indices,
      0 ≤ e.b ∧ e.b < (bs : ℤ) ∧ 0 ≤ e.a ∧ e.a < (na : ℤ) ∧
        0 ≤ e.gjx ∧ e.gjx ≤ ((grids.getD i (0, 0)).1 : ℤ) - 1 ∧
        0 ≤ e.gjy ∧ e.gjy ≤ ((grids.getD i (0, 0)).2 : ℤ) - 1 := by
  intro i hi e he
  have hg : i < grids.length := lt_of_lt_of_le hi hlen
  have hsh : grids.getD i (0, 0) ∈ grids := by
    rw [List.getD_eq_getElem?_getD, List.getElem?_eq_getElem hg, Option.getD_some]
    exact List.getElem_mem hg
  have hbt : (buildTargets na nl overlap anchorT anchors grids targets bs).getD
      i default =
      buildTargetsLayer anchorT (anchors.getD i []) (grids.getD i (0, 0))
        (augRows na overlap bs targets) (decide ¬targets.length = 0) := by
    unfold buildTargets
    rw [List.getD_eq_getElem?_getD, List.getElem?_map, List.getElem?_range hi]
    rfl
  rw [hbt] at he
  simp only [buildTargetsLayer, layerRecord] at he
  by_cases h0 : targets.length = 0
  · simp [h0] at he
  · rw [if_pos (decide_eq_true h0), List.mem_map] at he
    obtain ⟨ent, hent, heq⟩ := he
    have h1 : ent.1 ∈ filterStage anchorT (anchors.getD i [])
        ((augRows na overlap bs targets).map fun row =>
          row.map (scaleGain ((grids.getD i (0, 0)).2 : ℚ)
            ((grids.getD i (0, 0)).1 : ℚ))) :=
      mem_expandStage _ _ _ _ _ hent
    obtain ⟨row', hrow', hmem'⟩ := mem_filterStage_subset _ _ _ _ h1
    rw [List.mem_map] at hrow'
    obtain ⟨row0, hrow0, rfl⟩ := hrow'
    rw [List.mem_map] at hmem'
    obtain ⟨u, hu, hsu⟩ := hmem'
    obtain ⟨⟨a, hana, hai⟩, ⟨rt, hrt, himgu⟩⟩ :=
      augRows_fields na overlap bs targets row0 hrow0 u hu
    obtain ⟨k, hk, hkbs⟩ := himg rt hrt
    have himg1 : ent.1.img = (k : ℚ) := by rw [← hsu]; exact himgu.trans hk
    have hai1 : ent.1.ai = (a : ℚ) := by rw [← hsu]; exact hai
    have hs := hgrid _ hsh
    have hx1 : (0 : ℤ) ≤ ((grids.getD i (0, 0)).1 : ℤ) - 1 := by omega
    have hy1 : (0 : ℤ) ≤ ((grids.getD i (0, 0)).2 : ℤ) - 1 := by omega
    have hgx := clipZ_mem (truncQ (ent.1.x - ent.2.1)) 0
      (((grids.getD i (0, 0)).1 : ℤ) - 1) hx1
    have hgy := clipZ_mem (truncQ (ent.1.y - ent.2.2)) 0
      (((grids.getD i (0, 0)).2 : ℤ) - 1) hy1
    subst heq
    refine ⟨?_, ?_, ?_, ?_, ?_, ?_, ?_, ?_⟩
    · simp only [gijOf, himg1, truncQ_natCast]; positivity
    · simp only [gijOf, himg1, truncQ_natCast]; exact_mod_cast hkbs
    · simp only [gijOf, hai1, truncQ_natCast]; positivity
    · simp only [gijOf, hai1, truncQ_natCast]; exact_mod_cast hana
    · exact hgx.1
    · exact hgx.2
    · exact hgy.1
    · exact hgy.2

/-- Witness for the C10 theorem at a concrete one-target input. -/
theorem indices_in_bounds_witness :
    0 ≤ (⟨0, 0, 2, 2⟩ : IndexRow).b ∧ (⟨0, 0, 2, 2⟩ : IndexRow).b < (1 : ℤ) ∧
      0 ≤ (⟨0, 0, 2, 2⟩ : IndexRow).a ∧ (⟨0, 0, 2, 2⟩ : IndexRow).a < (1 : ℤ) ∧
      0 ≤ (⟨0, 0, 2, 2⟩ : IndexRow).gjx ∧
      (⟨0, 0, 2, 2⟩ : IndexRow).gjx ≤ (([((80 : ℕ), (80 : ℕ))].getD 0 (0, 0)).1 : ℤ) - 1 ∧
      0 ≤ (⟨0, 0, 2, 2⟩ : IndexRow).gjy ∧
      (⟨0, 0, 2, 2⟩ : IndexRow).gjy ≤ (([((80 : ℕ), (80 : ℕ))].getD 0 (0, 0)).2 : ℤ) - 1 :=
  indices_in_bounds 1 1 false 4 [[(1, 1)]] [(80, 80)] wTargets 1
    (by
      intro rt hrt
      simp only [wTargets, List.mem_singleton] at hrt
      subst hrt
      exact ⟨0, rfl, Nat.zero_lt_one⟩)
    (by intro s hs; rw [List.mem_singleton] at hs; subst hs; exact ⟨by norm_num, by norm_num⟩)
    (by norm_num)
    0 Nat.zero_lt_one ⟨0, 0, 2, 2⟩ (by with_unfolding_all decide)

/-! ### Claim C1: the neighbour-expansion left/up condition -/

/-- C1: evaluation of the target assigner at a failing input.  For a
single target whose grid-scaled center (2.3, 2.3) lies in the left/top
half of the non-edge cell (2, 2) of an 80-cell grid, the claim — and the
source's own comments at lines 321 and 324 (`dup to left/up if x/y in
left/up half & gxy>1`) — requires duplication into the left and the up
neighbour cells, three entries in total; the spec-modelled condition
`luFlagSpec` indeed holds at 2.3.  But line 326 of the code tests
`gxy < 1` instead of `gxy > 1`, so `luFlag` is false there and the
assigner emits only the single self entry (2, 2). -/
theorem neighbor_expansion_failing_input :
    ((buildTargets 1 1 false 4 [[(1, 1)]] [(80, 80)] wTargets 1).getD 0
        default).indices = [⟨0, 0, 2, 2⟩] ∧
      luFlagSpec (1 / 2) (23 / 10) = true ∧
      luFlag (1 / 2) (23 / 10) = false := by
  refine ⟨?_, ?_, ?_⟩ <;> with_unfolding_all decide

end YoloTF
